import Mathlib

/-!
Shallow embedding of the result reconciliation and temporal-state engine of
the `scan` server (`scan.go`, job handling in the job file): the scan
observation table with its upsert path (`saveData`), the submission log
(`loadSubmission` / `saveSubmission`), the read/classification path
(`loadData`, `resultData`) and the job fulfilment path
(`loadJobs` / `updateJob` / `recvJobResults`).

Timestamps are modelled as integers (Unix-style seconds): Go `time.Time`
comparisons `After` / `Before` / `Equal` form a total order that `Int`
reflects, and all times flowing through the modelled code share the UTC
location, so Go struct equality on them coincides with instant equality.
The SQLite store is modelled as explicit lists of rows; a fault oracle
(`Nat → Bool`, one tick per primitive statement) models storage failures so
that the transactional rollback discipline of the code is observable.
-/

namespace ScanModel

/-- Go `time.Time`, modelled as Unix seconds. -/
abbrev Time := Int

/-- The `Unix()` value of Go's zero `time.Time` (0001-01-01T00:00:00Z);
the model's representation of the zero time. -/
def goZeroTime : Time := -62135596800

/-- The nested `service` object of a masscan result port. -/
structure service where
  name : String
  banner : String
deriving DecidableEq

/-- The `port` struct decoded from a posted masscan result. -/
structure port where
  port : Int
  proto : String
  status : String
  service : service
deriving DecidableEq

/-- The `result` struct posted from masscan: one IP plus a ports array. -/
structure result where
  ip : String
  ports : List port
deriving DecidableEq

/-- A row of the `scan` table. -/
structure scanRow where
  ip : String
  port : Int
  proto : String
  firstseen : Time
  lastseen : Time
deriving DecidableEq

/-- A row of the `submission` table; `jobId = none` models SQL NULL. -/
structure subRow where
  host : String
  jobId : Option Int
  time : Time
deriving DecidableEq

/-- A row of the `job` table; `received`/`count` model nullable columns. -/
structure jobRow where
  rowid : Int
  cidr : String
  ports : String
  proto : String
  requestedBy : String
  submitted : Time
  received : Option Time
  count : Option Int
deriving DecidableEq

/-- The SQLite database: the four tables the core touches. The
`traceroute` table is modelled by its `dest` column only (the blob payload
is irrelevant to the core). -/
structure Store where
  scan : List scanRow
  submission : List subRow
  traceroute : List String
  job : List jobRow
deriving DecidableEq

/-- Failures the modelled code can surface: a storage error on some
statement, or the Go runtime panic from indexing an empty ports array. -/
inductive GoErr where
  | dbFail : GoErr
  | panicIndex : GoErr
deriving DecidableEq

/-- A fault oracle that never fails any statement. -/
def noFault : Nat → Bool := fun _ => false

/-- WHERE ip=? AND port=? AND proto=? on a scan row. -/
def scanKeyMatch (r : scanRow) (ip : String) (p : Int) (proto : String) : Bool :=
  r.ip == ip && r.port == p && r.proto == proto

/-- SELECT 1 FROM scan WHERE ip=? AND port=? AND proto=? — the first
matching row, if any. -/
def scanLookup (rows : List scanRow) (ip : String) (p : Int) (proto : String) :
    Option scanRow :=
  rows.find? (fun r => scanKeyMatch r ip p proto)

/-- UPDATE scan SET lastseen=? WHERE ip=? AND port=? AND proto=?. -/
def scanUpdate (rows : List scanRow) (ip : String) (p : Int) (proto : String)
    (now : Time) : List scanRow :=
  rows.map (fun r => if scanKeyMatch r ip p proto then { r with lastseen := now } else r)

/-- The body of the loop in `saveData`, acting on one posted record. State is
(transaction-local scan rows, count, fault-oracle tick). `r.Ports[0]` is read
unguarded, so an empty ports array is the index-out-of-range panic; a record
with empty status or a non-empty service name is skipped. -/
def saveStep (now : Time) (f : Nat → Bool) (st : List scanRow × Int × Nat)
    (r : result) : Except GoErr (List scanRow × Int × Nat) :=
  match r.ports with
  | [] => .error .panicIndex
  | p :: _ =>
    if p.status == "" || p.service.name != "" then .ok st
    else
      match st with
      | (txn, count, op) =>
        if f op then .error .dbFail
        else
          match scanLookup txn r.ip p.port p.proto with
          | none =>
            if f (op + 1) then .error .dbFail
            else .ok (txn ++ [⟨r.ip, p.port, p.proto, now, now⟩], count + 1, op + 2)
          | some _ =>
            if f (op + 1) then .error .dbFail
            else .ok (scanUpdate txn r.ip p.port p.proto now, count + 1, op + 2)

/-- The loop of `saveData` over the posted records; an error aborts the
loop (the code returns mid-loop after a rollback). -/
def saveLoop (now : Time) (f : Nat → Bool) :
    List result → List scanRow × Int × Nat → Except GoErr (List scanRow × Int × Nat)
  | [], st => .ok st
  | r :: rs, st =>
    match saveStep now f st r with
    | .error e => .error e
    | .ok st1 => saveLoop now f rs st1

/-- `saveData`: begin a transaction, prepare the three statements (ticks
0–3), run the loop, then commit (the code ignores the commit error: a failed
commit leaves the store unchanged but still returns the count with no
error). Every rollback path returns the pre-call store. -/
def saveData (results : List result) (now : Time) (σ : Store) (f : Nat → Bool) :
    Store × Except GoErr Int :=
  if f 0 || f 1 || f 2 || f 3 then (σ, .error .dbFail)
  else
    match saveLoop now f results (σ.scan, 0, 4) with
    | .error e => (σ, .error e)
    | .ok (txn, count, op) =>
      if f op then (σ, .ok count)
      else ({ σ with scan := txn }, .ok count)

/-! The submission log: `loadSubmission` / `saveSubmission`. -/

/-- The filters `loadSubmission` is called with: none, `job_id IS NULL`,
or `job_id IS NOT NULL`. -/
inductive subFilter where
  | all
  | jobNull
  | jobNotNull
deriving DecidableEq

/-- Whether a submission row satisfies a filter. -/
def subFilterMatch : subFilter → subRow → Bool
  | .all, _ => true
  | .jobNull, r => r.jobId.isNone
  | .jobNotNull, r => r.jobId.isSome

/-- The `submission` struct returned to callers; a NULL `job_id` scans to
the zero `Int64`, and a NULL time to the zero time. -/
structure submission where
  host : String
  job : Int
  time : Time
deriving DecidableEq

/-- ORDER BY rowid DESC LIMIT 1: the last-inserted row matching the
filter. -/
def lastMatching (fl : subFilter) (rows : List subRow) : Option subRow :=
  (rows.filter (subFilterMatch fl)).getLast?

/-- `loadSubmission`: `sql.ErrNoRows` is tolerated — the scan destinations
keep their zero values and a zero-value submission is returned with no
error; only a real storage failure (the `fault` flag) is an error. -/
def loadSubmission (fl : subFilter) (σ : Store) (fault : Bool) :
    Except GoErr submission :=
  if fault then .error .dbFail
  else
    match lastMatching fl σ.submission with
    | none => .ok ⟨"", 0, goZeroTime⟩
    | some r => .ok ⟨r.host, r.jobId.getD 0, r.time⟩

/-- `saveSubmission`: append-only insert into the submission log (the
metrics gauge update carries no store state). -/
def saveSubmission (host : String) (job : Option Int) (now : Time) (σ : Store) :
    Store :=
  { σ with submission := σ.submission ++ [⟨host, job, now⟩] }

/-! The read path: `loadData` and `resultData`. -/

/-- The filters `resultData` builds over the scan table: an optional
`ip LIKE %?%` clause and optional exact first/last-seen matches. -/
structure scanFilter where
  ipLike : Option String := none
  firstseenEq : Option Time := none
  lastseenEq : Option Time := none
deriving DecidableEq

/-- ASCII lower-casing, as SQLite's LIKE applies to ASCII letters. -/
def asciiLower (c : Char) : Char :=
  if 'A' ≤ c ∧ c ≤ 'Z' then Char.ofNat (c.toNat + 32) else c

/-- Whether `pat` starts the character list `s`. -/
def startsWithL : List Char → List Char → Bool
  | [], _ => true
  | _ :: _, [] => false
  | a :: as, b :: bs => a == b && startsWithL as bs

/-- Whether `pat` occurs contiguously inside `s`. -/
def hasSubL (pat : List Char) : List Char → Bool
  | [] => startsWithL pat []
  | c :: rest => startsWithL pat (c :: rest) || hasSubL pat rest

/-- SQLite `col LIKE '%pat%'` (ASCII-case-insensitive substring match). -/
def likeContains (s pat : String) : Bool :=
  hasSubL (pat.toList.map asciiLower) (s.toList.map asciiLower)

/-- Whether a scan row satisfies the WHERE clauses of a filter. -/
def scanFilterMatch (fl : scanFilter) (r : scanRow) : Bool :=
  (match fl.ipLike with | none => true | some ip => likeContains r.ip ip) &&
  (match fl.firstseenEq with | none => true | some t => r.firstseen == t) &&
  (match fl.lastseenEq with | none => true | some t => r.lastseen == t)

/-- ORDER BY port, proto, ip, lastseen (string columns compare by their
byte sequence, reflected by `compare` on `String`). -/
def scanLe (a b : scanRow) : Bool :=
  match compare a.port b.port with
  | .lt => true
  | .gt => false
  | .eq =>
    match compare a.proto b.proto with
    | .lt => true
    | .gt => false
    | .eq =>
      match compare a.ip b.ip with
      | .lt => true
      | .gt => false
      | .eq => decide (a.lastseen ≤ b.lastseen)

/-- Ordered insertion, for modelling the SQL ORDER BY. -/
def insertOrd (le : scanRow → scanRow → Bool) (a : scanRow) :
    List scanRow → List scanRow
  | [] => [a]
  | b :: bs => if le a b then a :: b :: bs else b :: insertOrd le a bs

/-- Insertion sort of the selected rows by the ORDER BY comparator. -/
def sortByLe (le : scanRow → scanRow → Bool) : List scanRow → List scanRow
  | [] => []
  | a :: as => insertOrd le a (sortByLe le as)

/-- The `ipInfo` struct built per row for display. -/
structure ipInfo where
  IP : String
  Port : Int
  Proto : String
  FirstSeen : Time
  LastSeen : Time
  New : Bool
  Gone : Bool
  HasTraceroute : Bool
deriving DecidableEq

/-- One `ipInfo` as `loadData` builds it, given the value the running
`latest` variable has when the row is classified. -/
def mkIpInfo (trs : List String) (latest : Time) (r : scanRow) : ipInfo :=
  { IP := r.ip
    Port := r.port
    Proto := r.proto
    FirstSeen := r.firstseen
    LastSeen := r.lastseen
    New := r.firstseen == r.lastseen && r.lastseen == latest
    Gone := decide (r.lastseen < latest)
    HasTraceroute := trs.contains r.ip }

/-- The row loop of `loadData`: `latest` is bumped to `lastseen` whenever
`lastseen.After(latest)` — before the row itself is classified — and the
updated value is carried into the rest of the loop. -/
def loadDataLoop (trs : List String) : Time → List scanRow → List ipInfo
  | _, [] => []
  | latest, r :: rest =>
    let latest1 := if latest < r.lastseen then r.lastseen else latest
    mkIpInfo trs latest1 r :: loadDataLoop trs latest1 rest

/-- The sweep boundary `loadData` starts from: the zero time, replaced by
the latest null-job submission's time when that query succeeds. -/
def sweepTime (σ : Store) (subFault : Bool) : Time :=
  match loadSubmission .jobNull σ subFault with
  | .ok sub => sub.time
  | .error _ => goZeroTime

/-- `loadData`: select the filtered rows in ORDER BY order, load the
traceroute destinations, seed `latest` from the latest null-job
submission, then run the classification loop. -/
def loadData (fl : scanFilter) (σ : Store) (subFault : Bool) : List ipInfo :=
  loadDataLoop σ.traceroute (sweepTime σ subFault)
    (sortByLe scanLe (σ.scan.filter (scanFilterMatch fl)))

/-- Decimal digit accumulation for `strconv.ParseInt`; any non-digit is a
syntax error. -/
def decDigitsAux : List Char → Nat → Option Nat
  | [], acc => some acc
  | c :: cs, acc =>
    if '0' ≤ c ∧ c ≤ '9' then decDigitsAux cs (acc * 10 + (c.toNat - '0'.toNat))
    else none

/-- Magnitude part of `strconv.ParseInt`: non-empty digit run within the
64-bit bound. -/
def goParseIntMag (cs : List Char) (bound : Nat) (mk : Nat → Int) : Option Int :=
  match cs with
  | [] => none
  | _ =>
    match decDigitsAux cs 0 with
    | none => none
    | some n => if n ≤ bound then some (mk n) else none

/-- Go `strconv.ParseInt(s, 10, 0)`: optional sign, decimal digits, 64-bit
range check; `none` models a non-nil error. -/
def goParseInt64 (s : String) : Option Int :=
  match s.toList with
  | [] => none
  | '+' :: rest => goParseIntMag rest (2 ^ 63 - 1) (fun n => (n : Int))
  | '-' :: rest => goParseIntMag rest (2 ^ 63) (fun n => -(n : Int))
  | cs => goParseIntMag cs (2 ^ 63 - 1) (fun n => (n : Int))

/-- The `scanData` aggregate returned by `resultData`. -/
structure scanData where
  Total : Int
  Latest : Int
  New : Int
  LastSeen : Int
  Results : List ipInfo
deriving DecidableEq

/-- `resultData`: build the filter (a timestamp argument that fails to
parse is logged and dropped), load the classified rows, then aggregate.
`latest` restarts from `time.Unix(0,0)` — Unix second 0 — so an empty
store reports `LastSeen = 0`. -/
def resultData (ip fs ls : String) (σ : Store) (subFault : Bool) : scanData :=
  let fl1 : scanFilter := if ip == "" then {} else { ipLike := some ip }
  let fl2 : scanFilter :=
    if fs == "" then fl1
    else
      match goParseInt64 fs with
      | none => fl1
      | some i => { fl1 with firstseenEq := some i }
  let fl3 : scanFilter :=
    if ls == "" then fl2
    else
      match goParseInt64 ls with
      | none => fl2
      | some i => { fl2 with lastseenEq := some i }
  let results := loadData fl3 σ subFault
  let latest := results.foldl
    (fun acc r => if acc < r.LastSeen then r.LastSeen else acc) 0
  let counts := results.foldl
    (fun (p : Int × Int) r =>
      (if !r.Gone then p.1 + 1 else p.1, if r.New then p.2 + 1 else p.2))
    (0, 0)
  { Total := (results.length : Int)
    Latest := counts.1
    New := counts.2
    LastSeen := latest
    Results := results }

/-! The job ledger: `loadJobs`, `updateJob` and the PUT /results/{id}
flow (`recvJobResults`). -/

/-- The filters `loadJobs` is called with: none, `rowid=?`, or
`received IS NULL`. -/
inductive jobFilter where
  | all
  | rowidEq (id : Int)
  | receivedNull
deriving DecidableEq

/-- Whether a job row satisfies a filter. -/
def jobFilterMatch : jobFilter → jobRow → Bool
  | .all, _ => true
  | .rowidEq i, j => j.rowid == i
  | .receivedNull, j => j.received.isNone

/-- ORDER BY received DESC, submitted, rowid: SQLite sorts NULLs first in
ascending order, hence last under DESC. -/
def jobLe (a b : jobRow) : Bool :=
  match a.received, b.received with
  | some x, some y =>
    if x == y then
      if a.submitted == b.submitted then decide (a.rowid ≤ b.rowid)
      else decide (a.submitted < b.submitted)
    else decide (y < x)
  | some _, none => true
  | none, some _ => false
  | none, none =>
    if a.submitted == b.submitted then decide (a.rowid ≤ b.rowid)
    else decide (a.submitted < b.submitted)

/-- Ordered insertion for job rows. -/
def insertOrdJ (le : jobRow → jobRow → Bool) (a : jobRow) :
    List jobRow → List jobRow
  | [] => [a]
  | b :: bs => if le a b then a :: b :: bs else b :: insertOrdJ le a bs

/-- Insertion sort for job rows. -/
def sortByLeJ (le : jobRow → jobRow → Bool) : List jobRow → List jobRow
  | [] => []
  | a :: as => insertOrdJ le a (sortByLeJ le as)

/-- `loadJobs`: the filtered job rows in ORDER BY order. -/
def loadJobs (fl : jobFilter) (σ : Store) : List jobRow :=
  sortByLeJ jobLe (σ.job.filter (jobFilterMatch fl))

/-- `updateJob`: UPDATE job SET received=?, count=? WHERE rowid=?, run at a
fresh `time.Now()` reading (`updNow`). When no row is affected the code
rolls back and returns the (nil) error — i.e. no change and no failure. -/
def updateJob (id : Int) (count : Int) (updNow : Time) (σ : Store) : Store :=
  if (σ.job.filter (fun j => j.rowid == id)).length = 0 then σ
  else
    { σ with
      job := σ.job.map (fun j =>
        if j.rowid == id then { j with received := some updNow, count := some count }
        else j) }

/-- Errors surfaced by the job fulfilment flow. -/
inductive fulfillErr where
  | notFound
  | alreadyFulfilled
  | saveErr (e : GoErr)
deriving DecidableEq

/-- The PUT /results/{id} flow of `recvJobResults`, past HTTP decoding:
look the job up by rowid; reject a missing job, then a job whose
`received` is already set; otherwise ingest the batch via `saveData`,
stamp the job via `updateJob` (at the fresh clock reading `updNow`), and
append a job-tagged submission row. -/
def recvJobResults (id : Int) (results : List result) (now updNow : Time)
    (host : String) (σ : Store) (f : Nat → Bool) : Store × Except fulfillErr Int :=
  match loadJobs (.rowidEq id) σ with
  | [] => (σ, .error .notFound)
  | j :: _ =>
    if j.received.isSome then (σ, .error .alreadyFulfilled)
    else
      match saveData results now σ f with
      | (σ1, .error e) => (σ1, .error (.saveErr e))
      | (σ1, .ok count) =>
        let σ2 := updateJob id count updNow σ1
        (saveSubmission host (some id) now σ2, .ok count)

/-! Invariants and specification-side definitions used by the theorems. -/

/-- The unique key of the scan table: (ip, port, proto). -/
def scanKey (r : scanRow) : String × Int × String := (r.ip, r.port, r.proto)

/-- The scan-table invariant: pairwise-distinct keys and
`first_seen <= last_seen` on every row. -/
def scanInv (rows : List scanRow) : Prop :=
  rows.Pairwise (fun a b => scanKey a ≠ scanKey b) ∧
    ∀ r ∈ rows, r.firstseen ≤ r.lastseen

/-- No row of `base` is deleted by a transition to `txn`: each key survives
with its `first_seen` intact. -/
def keeps (base txn : List scanRow) : Prop :=
  ∀ r ∈ base, ∃ q ∈ txn, scanKey q = scanKey r ∧ q.firstseen = r.firstseen

/-- The single global latest described by the claim about classification:
max of the sweep time and every returned row's lastseen. Definition follows
the claim's words, for comparison with `loadData`. -/
def claimLatest (sweep : Time) (rows : List scanRow) : Time :=
  rows.foldl (fun acc r => max acc r.lastseen) sweep

/-- Classification as the claim words it: every row is classified against
the one global latest. -/
def claimClassify (trs : List String) (sweep : Time) (rows : List scanRow) :
    List ipInfo :=
  rows.map (mkIpInfo trs (claimLatest sweep rows))

/-- `loadData` as the claim describes it: global-latest classification over
the same selected, ordered rows. -/
def claimLoadData (fl : scanFilter) (σ : Store) (subFault : Bool) : List ipInfo :=
  claimClassify σ.traceroute (sweepTime σ subFault)
    (sortByLe scanLe (σ.scan.filter (scanFilterMatch fl)))

/-- Default row for indexed access in the amended classification. -/
def defRow : scanRow := ⟨"", 0, "", 0, 0⟩

/-- The running latest over a prefix of the result rows: the sweep time
bumped by each row's lastseen in result order. -/
def runningLatest (sweep : Time) (rows : List scanRow) : Time :=
  rows.foldl (fun acc r => if acc < r.lastseen then r.lastseen else acc) sweep

/-- The amended classification: row `i` is classified against the running
latest over rows `0..i` inclusive (in ORDER BY order), not against the
single global latest. -/
def amendedClassify (trs : List String) (sweep : Time) (rows : List scanRow) :
    List ipInfo :=
  (List.range rows.length).map (fun i =>
    mkIpInfo trs (runningLatest sweep (rows.take (i + 1))) (rows.getD i defRow))

/-! Concrete sample values used by counterexamples and witnesses. -/

/-- A store with all four tables empty. -/
def emptyStore : Store := ⟨[], [], [], []⟩

/-- An open-port masscan record for 10.0.0.1:80/tcp. -/
def sampleOpen : port := ⟨80, "tcp", "open", ⟨"", ""⟩⟩

/-- A posted result carrying `sampleOpen`. -/
def sampleResult : result := ⟨"10.0.0.1", [sampleOpen]⟩

/-- A banner-only record (non-empty service name), which `saveData`
skips. -/
def bannerResult : result := ⟨"10.0.0.2", [⟨443, "tcp", "open", ⟨"https", "hello"⟩⟩]⟩

/-- A pending job with rowid 1. -/
def sampleJob : jobRow := ⟨1, "10.0.0.0/24", "80", "tcp", "u@example.com", 100, none, none⟩

/-- A store holding only `sampleJob`. -/
def jobStore : Store := ⟨[], [], [], [sampleJob]⟩

/-- Two observation rows whose result order (by port) is not their
lastseen order: the port-80 row is classified before the larger lastseen
of the port-443 row has been folded into `latest`. -/
def c1Store : Store :=
  ⟨[⟨"a", 80, "tcp", 10, 10⟩, ⟨"a", 443, "tcp", 20, 20⟩], [], [], []⟩

/-! Helper lemmas. -/

/-- `saveStep` never reports the index panic when the record's ports array
is non-empty. -/
theorem saveStep_no_panic (now : Time) (f : Nat → Bool)
    (st : List scanRow × Int × Nat) (r : result) (hr : r.ports ≠ []) :
    saveStep now f st r ≠ .error .panicIndex := by
  obtain ⟨txn, cnt, op⟩ := st
  rcases hp : r.ports with _ | ⟨p, ps⟩
  · exact absurd hp hr
  · simp only [saveStep, hp]
    split
    · simp
    · split
      · simp
      · split <;> split <;> simp

/-- The `saveData` loop never reports the index panic when every record's
ports array is non-empty. -/
theorem saveLoop_no_panic (now : Time) (f : Nat → Bool) :
    ∀ (rs : List result) (st : List scanRow × Int × Nat),
      (∀ r ∈ rs, r.ports ≠ []) →
      saveLoop now f rs st ≠ .error .panicIndex := by
  intro rs
  induction rs with
  | nil => intro st _; simp [saveLoop]
  | cons r rs ih =>
    intro st h
    have hr : r.ports ≠ [] := h r (List.mem_cons_self r rs)
    have hrs : ∀ x ∈ rs, x.ports ≠ [] := fun x hx => h x (List.mem_cons_of_mem r hx)
    simp only [saveLoop]
    rcases hstep : saveStep now f st r with e | st1
    · intro hc
      exact saveStep_no_panic now f st r hr (by rw [hstep]; exact hc)
    · exact ih st1 hrs

/-! Claim theorems. -/

/-- C7: on an empty store (no observations and no submissions),
`resultData` with all three filter arguments empty returns exactly
total 0, active count 0, new count 0, `LastSeen` 0 and an empty row
list. -/
theorem claim_C7_empty_store :
    resultData "" "" "" emptyStore false =
      { Total := 0, Latest := 0, New := 0, LastSeen := 0, Results := [] } := by
  rfl

/-- C5: `saveData` applies each batch atomically — whenever it reports an
error, the store it leaves behind is exactly the pre-call store. -/
theorem claim_C5_atomic (results : List result) (now : Time) (σ : Store)
    (f : Nat → Bool) (e : GoErr)
    (h : (saveData results now σ f).2 = .error e) :
    (saveData results now σ f).1 = σ := by
  by_cases hc : (f 0 || f 1 || f 2 || f 3) = true
  · simp [saveData, hc]
  · simp only [saveData, hc, Bool.false_eq_true, if_false] at h ⊢
    rcases hl : saveLoop now f results (σ.scan, 0, 4) with e1 | ⟨txn, cnt, op⟩
    · simp [hl]
    · rw [hl] at h
      simp only at h
      split at h <;> simp_all

/-- C5 witness: a storage failure on the very first statement leaves a
concrete store unchanged. -/
theorem claim_C5_witness :
    (saveData [sampleResult] 100 emptyStore (fun _ => true)).1 = emptyStore :=
  claim_C5_atomic [sampleResult] 100 emptyStore (fun _ => true) .dbFail (by rfl)

/-- C8: when no submission row matches the filter, `loadSubmission`
returns the zero-value submission with success; an error is reported only
on an actual storage failure. -/
theorem claim_C8_zero_value :
    (∀ (fl : subFilter) (σ : Store),
        σ.submission.filter (subFilterMatch fl) = [] →
        loadSubmission fl σ false = .ok ⟨"", 0, goZeroTime⟩) ∧
    (∀ (fl : subFilter) (σ : Store) (b : Bool) (e : GoErr),
        loadSubmission fl σ b = .error e → b = true) := by
  constructor
  · intro fl σ h
    simp [loadSubmission, lastMatching, h]
  · intro fl σ b e h
    cases b
    · rcases hm : lastMatching fl σ.submission with _ | r <;>
        simp [loadSubmission, hm] at h
    · rfl

/-- C8 witness: the empty submission log yields the zero-value submission
without error. -/
theorem claim_C8_witness :
    loadSubmission .jobNull emptyStore false = .ok ⟨"", 0, goZeroTime⟩ :=
  claim_C8_zero_value.1 .jobNull emptyStore (by rfl)

/-- C9: `saveData` is total only for batches whose records all carry a
non-empty ports array — it never reports the index panic on such batches —
and on a record with an empty ports array the unguarded `ports[0]` read
fails (the Go code panics) before any skip check can run. -/
theorem claim_C9_ports_panic :
    (∀ (results : List result) (now : Time) (σ : Store) (f : Nat → Bool),
        (∀ r ∈ results, r.ports ≠ []) →
        (saveData results now σ f).2 ≠ .error .panicIndex) ∧
    saveData [⟨"192.0.2.1", []⟩] 0 emptyStore noFault =
      (emptyStore, .error .panicIndex) := by
  constructor
  · intro results now σ f h
    by_cases hc : (f 0 || f 1 || f 2 || f 3) = true
    · simp [saveData, hc]
    · simp only [saveData, hc, Bool.false_eq_true, if_false]
      rcases hl : saveLoop now f results (σ.scan, 0, 4) with e1 | ⟨txn, cnt, op⟩
      · have hnp := saveLoop_no_panic now f results (σ.scan, 0, 4) h
        rw [hl] at hnp
        intro hcontra
        have he : e1 = GoErr.panicIndex := by simpa using hcontra
        exact hnp (by rw [he])
      · simp only
        split <;> simp
  · rfl

/-- C9 witness: a batch whose only record has a non-empty ports array
never triggers the index panic. -/
theorem claim_C9_witness :
    (saveData [sampleResult] 100 emptyStore noFault).2 ≠ .error .panicIndex :=
  claim_C9_ports_panic.1 [sampleResult] 100 emptyStore noFault (by decide)

/-- C10: a first-seen or last-seen filter string that does not parse as a
decimal integer is silently dropped — `resultData` returns the same result
as the call with that filter argument empty. -/
theorem claim_C10_malformed_filter :
    (∀ (ip fs ls : String) (σ : Store),
        goParseInt64 fs = none →
        resultData ip fs ls σ false = resultData ip "" ls σ false) ∧
    (∀ (ip fs ls : String) (σ : Store),
        goParseInt64 ls = none →
        resultData ip fs ls σ false = resultData ip fs "" σ false) := by
  constructor
  · intro ip fs ls σ h
    simp [resultData, h, ite_self]
  · intro ip fs ls σ h
    simp [resultData, h, ite_self]

/-- C10 witness: a concrete malformed first-seen filter is ignored. -/
theorem claim_C10_witness :
    resultData "192" "garbage" "" emptyStore false =
      resultData "192" "" "" emptyStore false :=
  claim_C10_malformed_filter.1 "192" "garbage" "" emptyStore (by rfl)

/-- C1 counterexample: on a concrete store with two rows whose result
order (by port) is not their lastseen order and no submission, `loadData`
does not classify every row against the single global latest: the port-80
row is classified as New and not Gone against the partial latest 10,
whereas the global latest 20 would make it not New and Gone. -/
theorem claim_C1_counterexample :
    loadData {} c1Store false ≠ claimLoadData {} c1Store false := by
  decide

/-- Splitting the `saveData` loop over an appended batch. -/
theorem saveLoop_append (now : Time) (f : Nat → Bool) :
    ∀ (l1 l2 : List result) (st : List scanRow × Int × Nat),
      saveLoop now f (l1 ++ l2) st =
        match saveLoop now f l1 st with
        | .error e => .error e
        | .ok st1 => saveLoop now f l2 st1 := by
  intro l1
  induction l1 with
  | nil => intro l2 st; simp [saveLoop]
  | cons r rs ih =>
    intro l2 st
    simp only [List.cons_append, saveLoop]
    rcases hs : saveStep now f st r with e | st1
    · rfl
    · exact ih l2 st1

/-- C3: a record whose status is empty or whose service name is non-empty
is skipped entirely by `saveData` — removing it from the batch changes
nothing: no row is created or updated and the affected count is not
incremented. -/
theorem claim_C3_skip (pre post : List result) (r : result) (p : port)
    (rest : List port) (now : Time) (σ : Store) (f : Nat → Bool)
    (hp : r.ports = p :: rest)
    (hskip : (p.status == "" || p.service.name != "") = true) :
    saveData (pre ++ r :: post) now σ f = saveData (pre ++ post) now σ f := by
  have hstep : ∀ st, saveStep now f st r = .ok st := by
    intro st
    simp only [saveStep, hp, hskip, if_true]
  have hloop : ∀ st, saveLoop now f (pre ++ r :: post) st =
      saveLoop now f (pre ++ post) st := by
    intro st
    rw [saveLoop_append, saveLoop_append]
    rcases hs : saveLoop now f pre st with e | st1
    · rfl
    · simp [saveLoop, hstep st1]
  simp only [saveData, hloop]

/-- C3 witness: dropping a concrete banner-only record from a batch leaves
`saveData` unchanged. -/
theorem claim_C3_witness :
    saveData ([sampleResult] ++ bannerResult :: []) 100 emptyStore noFault =
      saveData ([sampleResult] ++ []) 100 emptyStore noFault :=
  claim_C3_skip [sampleResult] [] bannerResult ⟨443, "tcp", "open", ⟨"https", "hello"⟩⟩
    [] 100 emptyStore noFault rfl (by decide)

/-- A key absent from a row list is found in the list with that key's row
appended exactly when the appended row matches. -/
theorem scanLookup_append (l : List scanRow) (x : scanRow) (ip : String)
    (p : Int) (proto : String) (h : scanLookup l ip p proto = none) :
    scanLookup (l ++ [x]) ip p proto =
      if scanKeyMatch x ip p proto then some x else none := by
  unfold scanLookup at h ⊢
  rw [List.find?_eq_none] at h
  induction l with
  | nil =>
    rcases hx : scanKeyMatch x ip p proto with _ | _ <;>
      simp [List.find?_cons, hx]
  | cons a l ih =>
    have ha : scanKeyMatch a ip p proto = false := by
      have h2 := h a (List.mem_cons_self a l)
      simpa using h2
    simp only [List.cons_append, List.find?_cons, ha]
    exact ih (fun y hy => h y (List.mem_cons_of_mem a hy))

/-- Updating a key that no row matches is the identity. -/
theorem scanUpdate_no_match (rows : List scanRow) (ip : String) (p : Int)
    (proto : String) (t : Time) (h : scanLookup rows ip p proto = none) :
    scanUpdate rows ip p proto t = rows := by
  unfold scanLookup at h
  rw [List.find?_eq_none] at h
  unfold scanUpdate
  rw [List.map_congr_left (fun a ha => ?_), List.map_id]
  simp [h a ha]

/-- C4: for a non-skipped record, `saveData` inserts a fresh row with
`first_seen = last_seen = now` when the key is absent, updates only
`last_seen` (keys and `first_seen` untouched) when the key is present,
counts both branches, and so ingesting the same key twice counts twice
while `first_seen` stays at the first ingestion time. -/
theorem claim_C4_upsert :
    (∀ (r : result) (p : port) (rest : List port) (now : Time) (σ : Store),
        r.ports = p :: rest →
        (p.status == "" || p.service.name != "") = false →
        scanLookup σ.scan r.ip p.port p.proto = none →
        saveData [r] now σ noFault =
          ({ σ with scan := σ.scan ++ [⟨r.ip, p.port, p.proto, now, now⟩] }, .ok 1)) ∧
    (∀ (r : result) (p : port) (rest : List port) (now : Time) (σ : Store)
        (q : scanRow),
        r.ports = p :: rest →
        (p.status == "" || p.service.name != "") = false →
        scanLookup σ.scan r.ip p.port p.proto = some q →
        saveData [r] now σ noFault =
          ({ σ with scan := scanUpdate σ.scan r.ip p.port p.proto now }, .ok 1)) ∧
    (∀ (rows : List scanRow) (ip : String) (p : Int) (proto : String) (t : Time),
        (scanUpdate rows ip p proto t).map (fun q => (q.ip, q.port, q.proto, q.firstseen)) =
          rows.map (fun q => (q.ip, q.port, q.proto, q.firstseen))) ∧
    (∀ (r : result) (p : port) (rest : List port) (t1 t2 : Time) (σ : Store),
        r.ports = p :: rest →
        (p.status == "" || p.service.name != "") = false →
        scanLookup σ.scan r.ip p.port p.proto = none →
        (saveData [r] t1 σ noFault).2 = .ok 1 ∧
        (saveData [r] t2 (saveData [r] t1 σ noFault).1 noFault).2 = .ok 1 ∧
        scanLookup ((saveData [r] t2 (saveData [r] t1 σ noFault).1 noFault).1).scan
            r.ip p.port p.proto = some ⟨r.ip, p.port, p.proto, t1, t2⟩) := by
  have hins : ∀ (r : result) (p : port) (rest : List port) (now : Time) (σ : Store),
      r.ports = p :: rest →
      (p.status == "" || p.service.name != "") = false →
      scanLookup σ.scan r.ip p.port p.proto = none →
      saveData [r] now σ noFault =
        ({ σ with scan := σ.scan ++ [⟨r.ip, p.port, p.proto, now, now⟩] }, .ok 1) := by
    intro r p rest now σ hp hns hlook
    simp [saveData, saveLoop, saveStep, noFault, hp, hns, hlook]
  have hupd : ∀ (r : result) (p : port) (rest : List port) (now : Time) (σ : Store)
      (q : scanRow),
      r.ports = p :: rest →
      (p.status == "" || p.service.name != "") = false →
      scanLookup σ.scan r.ip p.port p.proto = some q →
      saveData [r] now σ noFault =
        ({ σ with scan := scanUpdate σ.scan r.ip p.port p.proto now }, .ok 1) := by
    intro r p rest now σ q hp hns hlook
    simp [saveData, saveLoop, saveStep, noFault, hp, hns, hlook]
  refine ⟨hins, hupd, ?_, ?_⟩
  · intro rows ip p proto t
    unfold scanUpdate
    rw [List.map_map]
    exact List.map_congr_left (fun a _ => by
      by_cases hm : scanKeyMatch a ip p proto = true <;> simp [hm])
  · intro r p rest t1 t2 σ hp hns hlook
    have h1 := hins r p rest t1 σ hp hns hlook
    rw [h1]
    have hkey : scanKeyMatch ⟨r.ip, p.port, p.proto, t1, t1⟩ r.ip p.port p.proto = true := by
      simp [scanKeyMatch]
    have hlook1 : scanLookup (σ.scan ++ [⟨r.ip, p.port, p.proto, t1, t1⟩])
        r.ip p.port p.proto = some ⟨r.ip, p.port, p.proto, t1, t1⟩ := by
      rw [scanLookup_append σ.scan _ _ _ _ hlook, if_pos hkey]
    have h2 := hupd r p rest t2
      ({ σ with scan := σ.scan ++ [⟨r.ip, p.port, p.proto, t1, t1⟩] })
      ⟨r.ip, p.port, p.proto, t1, t1⟩ hp hns hlook1
    rw [h2]
    refine ⟨rfl, rfl, ?_⟩
    have hscan : scanUpdate (σ.scan ++ [⟨r.ip, p.port, p.proto, t1, t1⟩])
        r.ip p.port p.proto t2 =
        σ.scan ++ [⟨r.ip, p.port, p.proto, t1, t2⟩] := by
      unfold scanUpdate
      rw [List.map_append]
      rw [show (σ.scan.map (fun q =>
          if scanKeyMatch q r.ip p.port p.proto then { q with lastseen := t2 } else q)) =
          σ.scan from scanUpdate_no_match σ.scan r.ip p.port p.proto t2 hlook]
      simp [hkey]
    simp only [hscan]
    rw [scanLookup_append σ.scan _ _ _ _ hlook]
    simp [scanKeyMatch]

/-- C4 witness: a concrete double ingestion of the same key counts once
each time and pins `first_seen` to the first ingestion time while
`last_seen` moves to the second. -/
theorem claim_C4_witness :
    (saveData [sampleResult] 100 emptyStore noFault).2 = .ok 1 ∧
    (saveData [sampleResult] 200 (saveData [sampleResult] 100 emptyStore noFault).1 noFault).2 = .ok 1 ∧
    scanLookup ((saveData [sampleResult] 200
        (saveData [sampleResult] 100 emptyStore noFault).1 noFault).1).scan
        "10.0.0.1" 80 "tcp" = some ⟨"10.0.0.1", 80, "tcp", 100, 200⟩ :=
  claim_C4_upsert.2.2.2 sampleResult sampleOpen [] 100 200 emptyStore rfl (by decide) (by rfl)

/-- A row matches a key exactly when its `scanKey` is that key. -/
theorem scanKeyMatch_iff (a : scanRow) (ip : String) (p : Int) (proto : String) :
    scanKeyMatch a ip p proto = true ↔ scanKey a = (ip, p, proto) := by
  simp [scanKeyMatch, scanKey, Prod.ext_iff, and_assoc]

/-- One loop step of `saveData` preserves the table invariant, the bound
of every `first_seen` by `now`, and the survival of every pre-call row. -/
theorem saveStep_inv (now : Time) (f : Nat → Bool) (base : List scanRow)
    (st st1 : List scanRow × Int × Nat) (r : result)
    (hok : saveStep now f st r = .ok st1)
    (hinv : scanInv st.1) (hle : ∀ q ∈ st.1, q.firstseen ≤ now)
    (hkeep : keeps base st.1) :
    scanInv st1.1 ∧ (∀ q ∈ st1.1, q.firstseen ≤ now) ∧ keeps base st1.1 := by
  obtain ⟨txn, cnt, op⟩ := st
  rcases hp : r.ports with _ | ⟨p, ps⟩
  · simp [saveStep, hp] at hok
  · simp only [saveStep, hp] at hok
    by_cases hskip : (p.status == "" || p.service.name != "") = true
    · rw [if_pos hskip] at hok
      cases hok
      exact ⟨hinv, hle, hkeep⟩
    · rw [if_neg hskip] at hok
      by_cases hf1 : f op = true
      · rw [if_pos hf1] at hok; cases hok
      · rw [if_neg hf1] at hok
        rcases hlook : scanLookup txn r.ip p.port p.proto with _ | q
      -- absent: insert branch
        · simp only [hlook] at hok
          by_cases hf2 : f (op + 1) = true
          · rw [if_pos hf2] at hok; cases hok
          · rw [if_neg hf2] at hok
            cases hok
            have hnomatch : ∀ a ∈ txn, scanKeyMatch a r.ip p.port p.proto = false := by
              intro a ha
              have := (List.find?_eq_none.mp hlook) a ha
              simpa using this
            refine ⟨⟨?_, ?_⟩, ?_, ?_⟩
            · rw [List.pairwise_append]
              refine ⟨hinv.1, List.pairwise_singleton _ _, ?_⟩
              intro a ha b hb
              have hb1 : b = ⟨r.ip, p.port, p.proto, now, now⟩ := by simpa using hb
              subst hb1
              intro hc
              have : scanKeyMatch a r.ip p.port p.proto = true := by
                rw [scanKeyMatch_iff]
                simpa [scanKey] using hc
              rw [hnomatch a ha] at this
              exact Bool.false_ne_true this
            · intro q hq
              rcases List.mem_append.mp hq with hq1 | hq2
              · exact hinv.2 q hq1
              · have : q = ⟨r.ip, p.port, p.proto, now, now⟩ := by simpa using hq2
                subst this
                exact le_refl now
            · intro q hq
              rcases List.mem_append.mp hq with hq1 | hq2
              · exact hle q hq1
              · have : q = ⟨r.ip, p.port, p.proto, now, now⟩ := by simpa using hq2
                subst this
                exact le_refl now
            · intro a ha
              obtain ⟨q, hq, hkey, hfs⟩ := hkeep a ha
              exact ⟨q, List.mem_append_left _ hq, hkey, hfs⟩
      -- present: update branch
        · simp only [hlook] at hok
          by_cases hf2 : f (op + 1) = true
          · rw [if_pos hf2] at hok; cases hok
          · rw [if_neg hf2] at hok
            cases hok
            have hg : ∀ a : scanRow,
                scanKey (if scanKeyMatch a r.ip p.port p.proto then
                  { a with lastseen := now } else a) = scanKey a := by
              intro a
              split <;> simp [scanKey]
            have hgf : ∀ a : scanRow,
                (if scanKeyMatch a r.ip p.port p.proto then
                  { a with lastseen := now } else a).firstseen = a.firstseen := by
              intro a
              split <;> rfl
            refine ⟨⟨?_, ?_⟩, ?_, ?_⟩
            · unfold scanUpdate
              refine List.Pairwise.map _ (fun a b hab => ?_) hinv.1
              rw [hg a, hg b]
              exact hab
            · intro q hq
              unfold scanUpdate at hq
              obtain ⟨a, ha, rfl⟩ := List.mem_map.mp hq
              rw [hgf a]
              split
              · exact hle a ha
              · exact hinv.2 a ha
            · intro q hq
              unfold scanUpdate at hq
              obtain ⟨a, ha, rfl⟩ := List.mem_map.mp hq
              rw [hgf a]
              exact hle a ha
            · intro a ha
              obtain ⟨q, hq, hkey, hfs⟩ := hkeep a ha
              refine ⟨if scanKeyMatch q r.ip p.port p.proto then
                { q with lastseen := now } else q, ?_, ?_, ?_⟩
              · exact List.mem_map_of_mem _ hq
              · rw [hg q]; exact hkey
              · rw [hgf q]; exact hfs

/-- The whole `saveData` loop preserves the invariant bundle. -/
theorem saveLoop_inv (now : Time) (f : Nat → Bool) (base : List scanRow) :
    ∀ (rs : List result) (st st1 : List scanRow × Int × Nat),
      saveLoop now f rs st = .ok st1 →
      scanInv st.1 → (∀ q ∈ st.1, q.firstseen ≤ now) → keeps base st.1 →
      scanInv st1.1 ∧ (∀ q ∈ st1.1, q.firstseen ≤ now) ∧ keeps base st1.1 := by
  intro rs
  induction rs with
  | nil =>
    intro st st1 hok hinv hle hkeep
    cases hok
    exact ⟨hinv, hle, hkeep⟩
  | cons r rs ih =>
    intro st st1 hok hinv hle hkeep
    simp only [saveLoop] at hok
    rcases hs : saveStep now f st r with e | st2
    · rw [hs] at hok; cases hok
    · rw [hs] at hok
      obtain ⟨h1, h2, h3⟩ := saveStep_inv now f base st st2 r hs hinv hle hkeep
      exact ih st2 st1 hok h1 h2 h3

/-- `keeps` is reflexive. -/
theorem keeps_refl (rows : List scanRow) : keeps rows rows :=
  fun r hr => ⟨r, hr, rfl, rfl⟩

/-- The scan rows left by `saveData` are either untouched or the rows the
loop committed. -/
theorem saveData_scan_cases (results : List result) (now : Time) (σ : Store)
    (f : Nat → Bool) :
    ((saveData results now σ f).1).scan = σ.scan ∨
      ∃ txn cnt op, saveLoop now f results (σ.scan, 0, 4) = .ok (txn, cnt, op) ∧
        ((saveData results now σ f).1).scan = txn := by
  by_cases hc : (f 0 || f 1 || f 2 || f 3) = true
  · simp [saveData, hc]
  · simp only [saveData, hc, Bool.false_eq_true, if_false]
    rcases hl : saveLoop now f results (σ.scan, 0, 4) with e | ⟨txn, cnt, op⟩
    · exact Or.inl rfl
    · by_cases hop : f op = true
      · simp only [hop, if_true]
        exact Or.inl trivial
      · simp only [hop, Bool.false_eq_true, if_false]
        exact Or.inr ⟨txn, cnt, op, rfl, rfl⟩

/-- C6: the scan-table invariant — at most one row per (ip, port, proto)
key and `first_seen <= last_seen` — holds after every `saveData` call that
starts from an invariant store whose rows were first seen no later than
`now`, and no call ever deletes a row: every pre-call key survives with
its `first_seen` unchanged. -/
theorem claim_C6_invariant (results : List result) (now : Time) (σ : Store)
    (f : Nat → Bool) (hinv : scanInv σ.scan)
    (hle : ∀ q ∈ σ.scan, q.firstseen ≤ now) :
    scanInv ((saveData results now σ f).1).scan ∧
      keeps σ.scan ((saveData results now σ f).1).scan := by
  rcases saveData_scan_cases results now σ f with h | ⟨txn, cnt, op, hl, h⟩
  · rw [h]
    exact ⟨hinv, keeps_refl _⟩
  · rw [h]
    obtain ⟨h1, _, h3⟩ :=
      saveLoop_inv now f σ.scan results (σ.scan, 0, 4) (txn, cnt, op) hl hinv hle
        (keeps_refl _)
    exact ⟨h1, h3⟩

/-- C6 witness: a concrete re-ingestion into a one-row invariant store
preserves the invariant and deletes nothing. -/
theorem claim_C6_witness :
    scanInv ((saveData [sampleResult] 7
        ⟨[⟨"10.0.0.1", 80, "tcp", 3, 5⟩], [], [], []⟩ noFault).1).scan ∧
      keeps [⟨"10.0.0.1", 80, "tcp", 3, 5⟩]
        ((saveData [sampleResult] 7
          ⟨[⟨"10.0.0.1", 80, "tcp", 3, 5⟩], [], [], []⟩ noFault).1).scan :=
  claim_C6_invariant [sampleResult] 7 ⟨[⟨"10.0.0.1", 80, "tcp", 3, 5⟩], [], [], []⟩
    noFault ⟨List.pairwise_singleton _ _, by simp⟩ (by simp)

/-- Membership in an ordered insertion. -/
theorem mem_insertOrdJ (le : jobRow → jobRow → Bool) (a x : jobRow) :
    ∀ l : List jobRow, x ∈ insertOrdJ le a l ↔ x = a ∨ x ∈ l := by
  intro l
  induction l with
  | nil => simp [insertOrdJ]
  | cons b l ih =>
    simp only [insertOrdJ]
    split
    · simp only [List.mem_cons]
    · simp only [List.mem_cons, ih]
      tauto

/-- Membership is preserved by the job sort. -/
theorem mem_sortByLeJ (le : jobRow → jobRow → Bool) (x : jobRow) :
    ∀ l : List jobRow, x ∈ sortByLeJ le l ↔ x ∈ l := by
  intro l
  induction l with
  | nil => simp [sortByLeJ]
  | cons a l ih =>
    simp only [sortByLeJ, mem_insertOrdJ, ih, List.mem_cons]

/-- `saveData` never touches the job table. -/
theorem saveData_job (results : List result) (now : Time) (σ : Store)
    (f : Nat → Bool) : ((saveData results now σ f).1).job = σ.job := by
  by_cases hc : (f 0 || f 1 || f 2 || f 3) = true
  · simp [saveData, hc]
  · simp only [saveData, hc, Bool.false_eq_true, if_false]
    rcases hl : saveLoop now f results (σ.scan, 0, 4) with e | ⟨txn, cnt, op⟩
    · rfl
    · by_cases hop : f op = true
      · simp [hop]
      · simp [hop]

/-- C2: job fulfilment succeeds at most once — a missing job ID is
rejected as not-found; a job whose `received` is already set is rejected
with the distinguishable already-fulfilled error, leaving the store (hence
the job's `received` and `count`) unchanged; otherwise the ingestion count
is recorded, `received` is stamped with the update-time clock reading and
`count` with the affected count. -/
theorem claim_C2_fulfill_once :
    (∀ (id : Int) (results : List result) (now updNow : Time) (host : String)
        (σ : Store) (f : Nat → Bool),
        loadJobs (.rowidEq id) σ = [] →
        recvJobResults id results now updNow host σ f = (σ, .error .notFound)) ∧
    (∀ (id : Int) (results : List result) (now updNow : Time) (host : String)
        (σ : Store) (f : Nat → Bool) (j : jobRow) (js : List jobRow) (t : Time),
        loadJobs (.rowidEq id) σ = j :: js →
        j.received = some t →
        recvJobResults id results now updNow host σ f = (σ, .error .alreadyFulfilled)) ∧
    (∀ (id : Int) (results : List result) (now updNow : Time) (host : String)
        (σ : Store) (f : Nat → Bool) (j : jobRow) (js : List jobRow)
        (σ1 : Store) (c : Int),
        loadJobs (.rowidEq id) σ = j :: js →
        j.received = none →
        saveData results now σ f = (σ1, .ok c) →
        (recvJobResults id results now updNow host σ f).2 = .ok c ∧
        ∀ jj ∈ ((recvJobResults id results now updNow host σ f).1).job,
          jj.rowid = id → jj.received = some updNow ∧ jj.count = some c) := by
  refine ⟨?_, ?_, ?_⟩
  · intro id results now updNow host σ f hload
    simp [recvJobResults, hload]
  · intro id results now updNow host σ f j js t hload hrec
    simp [recvJobResults, hload, hrec]
  · intro id results now updNow host σ f j js σ1 c hload hrec hsave
    have hmem : j ∈ σ.job.filter (jobFilterMatch (.rowidEq id)) := by
      have : j ∈ sortByLeJ jobLe (σ.job.filter (jobFilterMatch (.rowidEq id))) := by
        rw [show sortByLeJ jobLe (σ.job.filter (jobFilterMatch (.rowidEq id))) = j :: js
          from hload]
        exact List.mem_cons_self j js
      exact (mem_sortByLeJ jobLe j _).mp this
    have hjob1 : σ1.job = σ.job := by
      have := saveData_job results now σ f
      rw [hsave] at this
      exact this
    have hfilter : σ1.job.filter (fun jj => jj.rowid == id) ≠ [] := by
      rw [hjob1]
      intro hnil
      have : j ∈ σ.job.filter (fun jj => jj.rowid == id) := hmem
      rw [hnil] at this
      exact List.not_mem_nil j this
    have hflen : ¬((σ1.job.filter (fun jj => jj.rowid == id)).length = 0) := by
      intro h0
      exact hfilter (List.length_eq_zero.mp h0)
    simp only [recvJobResults, hload, hrec, Option.isSome_none, Bool.false_eq_true,
      if_false, hsave]
    constructor
    · trivial
    · intro jj hjj hid
      simp only [saveSubmission, updateJob, hflen, if_false] at hjj
      have hjj2 : jj ∈ σ1.job.map (fun q =>
          if q.rowid == id then { q with received := some updNow, count := some c }
          else q) := hjj
      obtain ⟨a, ha, rfl⟩ := List.mem_map.mp hjj2
      by_cases hm : (a.rowid == id) = true
      · simp [hm]
      · rw [if_neg (by simp [hm])] at hid ⊢
        exact absurd hid (by simpa using hm)

/-- C2 witness: a concrete fulfilment of a pending job records the count
and stamps `received`. -/
theorem claim_C2_witness :
    (recvJobResults 1 [sampleResult] 200 201 "h" jobStore noFault).2 = .ok 1 ∧
    ∀ jj ∈ ((recvJobResults 1 [sampleResult] 200 201 "h" jobStore noFault).1).job,
      jj.rowid = 1 → jj.received = some 201 ∧ jj.count = some 1 :=
  claim_C2_fulfill_once.2.2 1 [sampleResult] 200 201 "h" jobStore noFault
    sampleJob [] ⟨[⟨"10.0.0.1", 80, "tcp", 200, 200⟩], [], [], [sampleJob]⟩ 1
    (by decide) rfl (by rfl)

/-- The classification loop equals the indexed prefix-max formulation:
row `i` is classified against the running latest over rows `0..i`. -/
theorem loadDataLoop_eq_amended (trs : List String) :
    ∀ (rows : List scanRow) (sweep : Time),
      loadDataLoop trs sweep rows = amendedClassify trs sweep rows := by
  intro rows
  induction rows with
  | nil => intro sweep; rfl
  | cons r rest ih =>
    intro sweep
    simp only [loadDataLoop, amendedClassify, List.length_cons,
      List.range_succ_eq_map, List.map_cons, List.map_map]
    congr 1
    rw [ih]
    simp only [amendedClassify]
    congr 1

/-- C1 amended: `loadData` classifies each returned row against the
running latest accumulated in result order — max of the sweep time and the
lastseen values of the rows up to and including that row — not against the
single global latest. -/
theorem claim_C1_running_latest (fl : scanFilter) (σ : Store) (subFault : Bool) :
    loadData fl σ subFault =
      amendedClassify σ.traceroute (sweepTime σ subFault)
        (sortByLe scanLe (σ.scan.filter (scanFilterMatch fl))) :=
  loadDataLoop_eq_amended σ.traceroute _ _

end ScanModel
